import Mathlib

/-!
The keys_tuple library: a record addressed by compile-time keys.

Shallow embedding of `erd_lib.hpp` (the `erd::keys_tuple` template and its
helpers in `erd::erd_impl`) and of the parts of `main.cpp` that use it.

The library is a C++ template metaprogram, so two things are embedded:

* what the compiler does with the templates: which specialization of
  `keys_tuple_impl` / `access_helper` is selected for given key and type lists,
  and when no defined specialization exists. An instantiation that the
  compiler rejects is `none`;
* what the instantiated code does at run time with the record's fields
  (`m_value`, `m_defVal`, `m_key`).

Keys are the non-type template arguments `const char*`; they are compared by
the compiler for identity, so any type `K` with decidable equality stands for
them. The types of a `types_t<...>` list are codes `u : U`, with `CppTypes.El u`
the values of the type and `CppTypes.dflt u` the value of the expression `T()`.
-/

set_option autoImplicit false

namespace erd

/-- The C++ types that can be listed in `types_t<...>`: a code `u : U` stands for
a type, `El u` for its values and `dflt u` for the value-initialised `T()`. The
listed types are taken to be copyable and default-constructible, as the
constructors of erd_lib.hpp 148-152 and 203-206 need. -/
class CppTypes (U : Type) where
  /-- Values of the type. -/
  El : U → Type
  /-- Value of the expression `T()`. -/
  dflt : (u : U) → El u

/-- A value together with its static type. -/
abbrev Value (U : Type) [CppTypes U] : Type := (u : U) × CppTypes.El u

namespace erd_impl

variable {K U : Type} [CppTypes U]

/-- Storage chain `keys_tuple_impl<keys_t<...>, types_t<...>>` (erd_lib.hpp 53, 142-169).
The primary template is only declared; the two specializations are the empty
record (165-169) and one segment deriving from the record of the remaining
keys and types (142-158). For other shapes of the two lists the type is
incomplete and has no values. -/
inductive keys_tuple_impl : List K → List U → Type
  /-- The empty record `keys_tuple_impl<keys_t<>, types_t<>>`, no members. -/
  | nil : keys_tuple_impl [] []
  /-- One segment: the base class subobject and the members `m_value`,
  `m_defVal`, `m_key`. -/
  | cons {First_k : K} {Others_k : List K} {First_t : U} {Others_t : List U}
      (base : keys_tuple_impl Others_k Others_t)
      (m_value : CppTypes.El First_t) (m_defVal : CppTypes.El First_t) (m_key : K) :
      keys_tuple_impl (First_k :: Others_k) (First_t :: Others_t)

/-- Whether `keys_tuple_impl<keys_t<keys...>, types_t<types...>>` is a complete
type: a defined specialization matches and its base class is complete. -/
def keys_tuple_impl.complete : List K → List U → Bool
  | [], [] => true
  | _ :: Others_k, _ :: Others_t => complete Others_k Others_t
  | _, _ => false

/-- Member `m_value` of the most derived segment. -/
def keys_tuple_impl.m_value {First_k : K} {Others_k : List K} {First_t : U} {Others_t : List U} :
    keys_tuple_impl (First_k :: Others_k) (First_t :: Others_t) → CppTypes.El First_t
  | .cons _ v _ _ => v

/-- Member `m_defVal` of the most derived segment. -/
def keys_tuple_impl.m_defVal {First_k : K} {Others_k : List K} {First_t : U} {Others_t : List U} :
    keys_tuple_impl (First_k :: Others_k) (First_t :: Others_t) → CppTypes.El First_t
  | .cons _ _ d _ => d

/-- Member `m_key` of the most derived segment. -/
def keys_tuple_impl.m_key {First_k : K} {Others_k : List K} {First_t : U} {Others_t : List U} :
    keys_tuple_impl (First_k :: Others_k) (First_t :: Others_t) → K
  | .cons _ _ _ k => k

/-- Derived-to-base conversion: the base class subobject. -/
def keys_tuple_impl.base {First_k : K} {Others_k : List K} {First_t : U} {Others_t : List U} :
    keys_tuple_impl (First_k :: Others_k) (First_t :: Others_t) →
      keys_tuple_impl Others_k Others_t
  | .cons b _ _ _ => b

/-- The object after the assignment `element.m_value = value` (erd_lib.hpp 137). -/
def keys_tuple_impl.assign_m_value {First_k : K} {Others_k : List K} {First_t : U}
    {Others_t : List U} (value : CppTypes.El First_t) :
    keys_tuple_impl (First_k :: Others_k) (First_t :: Others_t) →
      keys_tuple_impl (First_k :: Others_k) (First_t :: Others_t)
  | .cons b _ d k => .cons b value d k

/-- The object after its base class subobject, reached through a non-const
reference, has become `b`. -/
def keys_tuple_impl.assign_base {First_k : K} {Others_k : List K} {First_t : U}
    {Others_t : List U} (b : keys_tuple_impl Others_k Others_t) :
    keys_tuple_impl (First_k :: Others_k) (First_t :: Others_t) →
      keys_tuple_impl (First_k :: Others_k) (First_t :: Others_t)
  | .cons _ v d k => .cons b v d k

/-- Constructor of `keys_tuple_impl` (erd_lib.hpp 148-152 and 168) called with
the argument list `args`. A segment takes `firstVal` of type `First_t`, passes
the remaining arguments to its base class, and copies `firstVal` into `m_value`
and `m_defVal`; `m_key` gets its default member initializer `First_k` (157).
The empty record takes no argument. `none`: the call does not compile (wrong
number or types of arguments, or no defined specialization). Arguments are
taken after conversion to the parameter types. -/
def keys_tuple_impl.construct [DecidableEq U] :
    (keys : List K) → (types : List U) → List (Value U) → Option (keys_tuple_impl keys types)
  | [], [], [] => some .nil
  | First_k :: Others_k, First_t :: Others_t, ⟨t, firstVal⟩ :: othersVal =>
    if e : t = First_t then
      match construct Others_k Others_t othersVal with
      | some b => some (.cons b (e ▸ firstVal) (e ▸ firstVal) First_k)
      | none => none
    else none
  | _, _, _ => none

/-- What is stored in a record, segment by segment from the most derived class
down: `m_value`, `m_defVal` (each with its type) and `m_key`. -/
def keys_tuple_impl.slots :
    {keys : List K} → {types : List U} → keys_tuple_impl keys types →
      List (Value U × Value U × K)
  | _, _, .nil => []
  | _, _, @keys_tuple_impl.cons _ _ _ _ _ First_t _ b v d k =>
    (⟨First_t, v⟩, ⟨First_t, d⟩, k) :: b.slots

/-- An instantiated `access_helper<Key, keys_t<keys...>, types_t<types...>>`
(erd_lib.hpp 69-139): the member type `value_type` and the static member
functions `get` and `set`. `set` returns the record after the call. The
recursive specialization declares its parameter as a reference to the base
class `keys_tuple_impl<keys_t<Others_k...>, types_t<Others_t...>>`; the
derived-to-base conversion the caller performs to bind it is part of `get` and
`set` here, so that both take the record of the full lists. -/
structure access_helper (Key : K) (keys : List K) (types : List U) where
  /-- Member type `value_type`. -/
  value_type : U
  /-- Static member `get`. -/
  get : keys_tuple_impl keys types → CppTypes.El value_type
  /-- Static member `set`. -/
  set : CppTypes.El value_type → keys_tuple_impl keys types → keys_tuple_impl keys types

/-- Selection and instantiation of `access_helper<Key, keys_t<keys...>,
types_t<types...>>`.

* Head of the key list equal to `Key`: the success-case specialization
  (114-139). Its `value_type` names
  `keys_tuple_impl<keys_t<Key, Others_k...>, types_t<First_t, Others_t...>>::value_type`,
  which needs that class complete.
* Another head: the recursive specialization (82-109), whose `value_type`, `get`
  and `set` are those of the helper for the remaining keys and types.
* One of the lists empty: only the primary template (69) matches, which is
  declared and never defined: `none`. -/
def access_helper.resolve [DecidableEq K] (Key : K) :
    (keys : List K) → (types : List U) → Option (access_helper Key keys types)
  | First_k :: Others_k, First_t :: Others_t =>
    if Key = First_k then
      if keys_tuple_impl.complete (First_k :: Others_k) (First_t :: Others_t) then
        some
          { value_type := First_t
            get := fun element => element.m_value
            set := fun value element => keys_tuple_impl.assign_m_value value element }
      else none
    else
      match resolve Key Others_k Others_t with
      | some next =>
        some
          { value_type := next.value_type
            get := fun element => next.get element.base
            set := fun value element => keys_tuple_impl.assign_base (next.set value element.base) element }
      | none => none
  | _, _ => none

end erd_impl

open erd_impl

variable {K U : Type} [CppTypes U]

/-- The facade `keys_tuple<keys_t<Others_k...>, types_t<Others_t...>>`
(erd_lib.hpp 186-272): it derives from `keys_tuple_impl` of the same lists and
has no member of its own. -/
structure keys_tuple (keys : List K) (types : List U) where
  /-- The base class subobject. -/
  impl : keys_tuple_impl keys types

/-- Parameter type lists of the two constructors the class declares:
`keys_tuple(const Others_t& ...)` (197) and `keys_tuple()` (203). -/
def keys_tuple.constructors (types : List U) : List (List U) :=
  [types, []]

/-- Whether the class `keys_tuple<keys_t<keys...>, types_t<types...>>` can be
instantiated: its base class (188) is complete, the `static_assert` on the two
pack sizes (190) holds, and the two constructors (197, 203) do not have the
same parameter list: a class may not declare two constructors with the same
parameter list, and for empty packs `keys_tuple(const Others_t& ...)` is
`keys_tuple()`. -/
def keys_tuple.well_formed [DecidableEq U] (keys : List K) (types : List U) : Bool :=
  keys_tuple_impl.complete keys types
    && decide (keys.length = types.length)
    && decide (keys_tuple.constructors types).Nodup

/-- Construction of a `keys_tuple` from the argument list `args`
(erd_lib.hpp 197-206). No argument selects `keys_tuple()`, which passes
`Others_t()...` to the base class; otherwise `keys_tuple(const Others_t& ...)`
passes the arguments on. `none`: the program does not compile. The arguments
are the initial values of the slots, after conversion to the parameter types;
the implicitly declared copy and move constructors are not embedded. -/
def keys_tuple.construct [DecidableEq U] (keys : List K) (types : List U)
    (args : List (Value U)) : Option (keys_tuple keys types) :=
  if keys_tuple.well_formed keys types then
    match args with
    | [] =>
      (keys_tuple_impl.construct keys types
        (types.map fun t => ⟨t, CppTypes.dflt t⟩)).map keys_tuple.mk
    | _ :: _ => (keys_tuple_impl.construct keys types args).map keys_tuple.mk
  else none

/-- Member alias `access_helper_t<Key>` (erd_lib.hpp 194-195). -/
def keys_tuple.access_helper_t [DecidableEq K] (Key : K) (keys : List K) (types : List U) :
    Option (access_helper Key keys types) :=
  access_helper.resolve Key keys types

/-- Member `get<Key>() const noexcept` (erd_lib.hpp 235-239): the value of
`access_helper_t<Key>::get(*this)` with its type `value_type`. `none`: the call
does not compile. -/
def keys_tuple.get [DecidableEq K] {keys : List K} {types : List U} (Key : K)
    (self : keys_tuple keys types) : Option (Value U) :=
  match keys_tuple.access_helper_t Key keys types with
  | some h => some ⟨h.value_type, h.get self.impl⟩
  | none => none

/-- Member `set<Key>(const value_type& value)` (erd_lib.hpp 267-271): the record
after `access_helper_t<Key>::set(value, *this)`. `none`: the call does not
compile (no helper for `Key`, or `value`, taken after conversion, is not of
type `value_type`). -/
def keys_tuple.set [DecidableEq K] [DecidableEq U] {keys : List K} {types : List U} (Key : K)
    (value : Value U) (self : keys_tuple keys types) : Option (keys_tuple keys types) :=
  match keys_tuple.access_helper_t Key keys types with
  | some h =>
    if e : value.1 = h.value_type then some ⟨h.set (e ▸ value.2) self.impl⟩ else none
  | none => none

/-- A member call on a record object: `get<Key>()` or `set<Key>(value)`. -/
inductive Call (K U : Type) [CppTypes U]
  | get (Key : K)
  | set (Key : K) (value : Value U)

/-- A sequence of member calls on one record object, in program order: the
object after the last call and the values the `get` calls returned. `get` is a
`const` member (erd_lib.hpp 236) and leaves the object as it is; `set` continues
with the modified object. `none`: one of the calls does not compile. -/
def keys_tuple.run [DecidableEq K] [DecidableEq U] {keys : List K} {types : List U}
    (self : keys_tuple keys types) :
    List (Call K U) → Option (keys_tuple keys types × List (Value U))
  | [] => some (self, [])
  | .get Key :: rest =>
    match self.get Key with
    | some v =>
      match self.run rest with
      | some (s, vs) => some (s, v :: vs)
      | none => none
    | none => none
  | .set Key value :: rest =>
    match self.set Key value with
    | some s => s.run rest
    | none => none

/-! ## The program of main.cpp -/

namespace main

/-- The arrays with static storage duration defined in main.cpp 7-16; their
addresses are the keys. -/
inductive StaticArray
  | KEY_HELLO | KEY_TIME | KEY_INT | KEY_FAILURE | KEY_STR | KEY_REF | KEY_BOOL
  deriving DecidableEq, Repr

/-- The three types listed in main.cpp 22: `std::string`, the tick count type
`decltype(start.time_since_epoch().count())` and `int`. -/
inductive Ty
  | string | rep | int
  deriving DecidableEq, Repr

instance : CppTypes Ty where
  El
    | .string => String
    | .rep => Int
    | .int => Int
  dflt
    | .string => ""
    | .rep => 0
    | .int => 0

/-- Key list of the record `foo` (main.cpp 22). -/
def foo_keys : List StaticArray :=
  [StaticArray.KEY_HELLO, StaticArray.KEY_TIME, StaticArray.KEY_INT]

/-- Type list of the record `foo` (main.cpp 22). -/
def foo_types : List Ty :=
  [Ty.string, Ty.rep, Ty.int]

/-- Constructor arguments of `foo` (main.cpp 22), converted to the parameter
types, for the tick count `ticks` read from the clock. -/
def foo_args (ticks : Int) : List (Value Ty) :=
  [⟨Ty.string, "Hello world"⟩, ⟨Ty.rep, ticks⟩, ⟨Ty.int, (42 : Int)⟩]

/-- The record `foo` of main.cpp 22. -/
def foo (ticks : Int) : Option (keys_tuple foo_keys foo_types) :=
  keys_tuple.construct foo_keys foo_types (foo_args ticks)

/-- The object `foo` as the constructor call of main.cpp 22 leaves it. -/
def foo_record (ticks : Int) : keys_tuple foo_keys foo_types :=
  ⟨.cons (.cons (.cons .nil (42 : Int) (42 : Int) StaticArray.KEY_INT) ticks ticks
    StaticArray.KEY_TIME) "Hello world" "Hello world" StaticArray.KEY_HELLO⟩

/-- The member calls of main.cpp 29-33 on `foo`, arguments converted to the
parameter types. -/
def foo_calls : List (Call StaticArray Ty) :=
  [Call.set StaticArray.KEY_HELLO ⟨Ty.string, "He??o WORLD"⟩,
    Call.set StaticArray.KEY_INT ⟨Ty.int, (43 : Int)⟩,
    Call.get StaticArray.KEY_HELLO, Call.get StaticArray.KEY_INT]

/-- The object `foo` after the two `set` calls of main.cpp 29-30. -/
def foo_record_after (ticks : Int) : keys_tuple foo_keys foo_types :=
  ⟨.cons (.cons (.cons .nil (43 : Int) (42 : Int) StaticArray.KEY_INT) ticks ticks
    StaticArray.KEY_TIME) "He??o WORLD" "Hello world" StaticArray.KEY_HELLO⟩

/-- Addition of two `int` values, 32 bits two's complement. -/
def int_add (a b : Int) : Int :=
  (a + b + 2 ^ 31) % 2 ^ 32 - 2 ^ 31

/-- The loop of main.cpp 24, `counter += foo.get<KEY_INT>()`, for the `n`
iterations still to run: the final value of `counter`. -/
def read_loop {keys : List StaticArray} {types : List Ty} (foo : keys_tuple keys types) :
    Nat → Int → Option Int
  | 0, counter => some counter
  | n + 1, counter =>
    match foo.get StaticArray.KEY_INT with
    | some ⟨Ty.int, v⟩ => read_loop foo n (int_add counter v)
    | _ => none

end main

/-! ## Direct positional access -/

/-- Direct positional access, in the words of the specification: the live
value (`m_value`, with its type) of the slot at position `i` of the record,
positions counted in the order of the identifier list. It does not look at
any key. -/
def keys_tuple.live_value_at {keys : List K} {types : List U} (self : keys_tuple keys types)
    (i : Nat) : Option (Value U) :=
  (self.impl.slots[i]?).map fun s => s.1

/-! ## A record type that lists one key twice -/

/-- Key list in which `KEY_INT` is listed at positions 0 and 2. -/
def dup_keys : List main.StaticArray :=
  [main.StaticArray.KEY_INT, main.StaticArray.KEY_HELLO, main.StaticArray.KEY_INT]

/-- Type list for `dup_keys`; the two slots of `KEY_INT` have different types. -/
def dup_types : List main.Ty :=
  [main.Ty.int, main.Ty.string, main.Ty.string]

/-- The record `keys_tuple<keys_t<KEY_INT, KEY_HELLO, KEY_INT>,
types_t<int, std::string, std::string>>` constructed from
`(42, "Hello world", "later")`. -/
def dup_record : keys_tuple dup_keys dup_types :=
  ⟨.cons (.cons (.cons .nil "later" "later" main.StaticArray.KEY_INT) "Hello world"
    "Hello world" main.StaticArray.KEY_HELLO) (42 : Int) (42 : Int) main.StaticArray.KEY_INT⟩

/-! ## Unfolding the instantiated helpers -/

omit [CppTypes U] in
theorem erd_impl.keys_tuple_impl.complete_iff (keys : List K) (types : List U) :
    keys_tuple_impl.complete keys types = true ↔ keys.length = types.length := by
  induction keys generalizing types with
  | nil => cases types <;> simp [keys_tuple_impl.complete]
  | cons k ks ih => cases types <;> simp [keys_tuple_impl.complete, ih]

theorem erd_impl.keys_tuple_impl.length_eq {keys : List K} {types : List U}
    (r : keys_tuple_impl keys types) : keys.length = types.length := by
  induction r with
  | nil => rfl
  | cons b v d k ih => simp [ih]

theorem keys_tuple.get_nil [DecidableEq K] (Key : K) (r : keys_tuple ([] : List K) ([] : List U)) :
    r.get Key = none := rfl

theorem keys_tuple.get_cons [DecidableEq K] (Key : K) {First_k : K} {Others_k : List K}
    {First_t : U} {Others_t : List U} (b : keys_tuple_impl Others_k Others_t)
    (v d : CppTypes.El First_t) (k : K) :
    (keys_tuple.mk (keys_tuple_impl.cons b v d k :
        keys_tuple_impl (First_k :: Others_k) (First_t :: Others_t))).get Key =
      if Key = First_k then some ⟨First_t, v⟩ else (keys_tuple.mk b).get Key := by
  have hc : keys_tuple_impl.complete (First_k :: Others_k) (First_t :: Others_t) = true := by
    rw [keys_tuple_impl.complete_iff]; simp [b.length_eq]
  unfold keys_tuple.get keys_tuple.access_helper_t
  by_cases h : Key = First_k
  · simp [access_helper.resolve, h, hc, keys_tuple_impl.m_value]
  · simp only [access_helper.resolve, h, if_false]
    cases access_helper.resolve Key Others_k Others_t <;> simp [keys_tuple_impl.base]

theorem keys_tuple.set_nil [DecidableEq K] [DecidableEq U] (Key : K) (value : Value U)
    (r : keys_tuple ([] : List K) ([] : List U)) :
    r.set Key value = none := rfl

theorem keys_tuple.set_cons [DecidableEq K] [DecidableEq U] (Key : K) (value : Value U)
    {First_k : K} {Others_k : List K}
    {First_t : U} {Others_t : List U} (b : keys_tuple_impl Others_k Others_t)
    (v d : CppTypes.El First_t) (k : K) :
    (keys_tuple.mk (keys_tuple_impl.cons b v d k :
        keys_tuple_impl (First_k :: Others_k) (First_t :: Others_t))).set Key value =
      if Key = First_k then
        if e : value.1 = First_t then some ⟨.cons b (e ▸ value.2) d k⟩ else none
      else ((keys_tuple.mk b).set Key value).map fun b1 => ⟨.cons b1.impl v d k⟩ := by
  have hc : keys_tuple_impl.complete (First_k :: Others_k) (First_t :: Others_t) = true := by
    rw [keys_tuple_impl.complete_iff]; simp [b.length_eq]
  unfold keys_tuple.set keys_tuple.access_helper_t
  by_cases h : Key = First_k
  · simp [access_helper.resolve, h, hc, keys_tuple_impl.assign_m_value]
  · simp only [access_helper.resolve, h, if_false]
    cases access_helper.resolve Key Others_k Others_t with
    | none => simp
    | some next =>
      simp only []
      by_cases e : value.1 = next.value_type
      · simp [e, keys_tuple_impl.base, keys_tuple_impl.assign_base]
      · simp [e]

/-! ## Positional view of the storage chain -/

theorem erd_impl.keys_tuple_impl.slots_length {keys : List K} {types : List U}
    (b : keys_tuple_impl keys types) : b.slots.length = keys.length := by
  induction b with
  | nil => rfl
  | cons b v d k ih => simp [keys_tuple_impl.slots, ih]

theorem keys_tuple.get_eq_slot [DecidableEq K] {keys : List K} {types : List U}
    (b : keys_tuple_impl keys types) (Key : K) (h : Key ∈ keys) :
    (keys_tuple.mk b).get Key = (b.slots[keys.indexOf Key]?).map (·.1) := by
  induction b with
  | nil => simp at h
  | @cons First_k Others_k First_t Others_t b v d k ih =>
    rw [keys_tuple.get_cons]
    by_cases hk : Key = First_k
    · subst hk
      simp [keys_tuple_impl.slots]
    · have hmem : Key ∈ Others_k := by
        rcases List.mem_cons.mp h with h1 | h1
        · exact absurd h1 hk
        · exact h1
      rw [if_neg hk, ih hmem, List.indexOf_cons_ne _ (Ne.symm hk)]
      simp [keys_tuple_impl.slots]

theorem keys_tuple.get_eq_none [DecidableEq K] {keys : List K} {types : List U}
    (b : keys_tuple_impl keys types) (Key : K) (h : Key ∉ keys) :
    (keys_tuple.mk b).get Key = none := by
  induction b with
  | nil => rfl
  | @cons First_k Others_k First_t Others_t b v d k ih =>
    rw [keys_tuple.get_cons]
    have h1 : Key ≠ First_k := fun e => h (e ▸ List.mem_cons_self _ _)
    have h2 : Key ∉ Others_k := fun e => h (List.mem_cons_of_mem _ e)
    rw [if_neg h1, ih h2]

/-! ## Construction -/

theorem erd_impl.keys_tuple_impl.construct_some [DecidableEq U] (keys : List K) (types : List U)
    (args : List (Value U)) (hlen : keys.length = types.length)
    (hty : args.map Sigma.fst = types) :
    ∃ b, keys_tuple_impl.construct keys types args = some b := by
  induction keys generalizing types args with
  | nil =>
    cases types with
    | nil =>
      cases args with
      | nil => exact ⟨_, rfl⟩
      | cons a as => simp at hty
    | cons t ts => simp at hlen
  | cons k ks ih =>
    cases types with
    | nil => simp at hlen
    | cons t ts =>
      cases args with
      | nil => simp at hty
      | cons a as =>
        obtain ⟨u, x⟩ := a
        simp only [List.map_cons, List.cons.injEq] at hty
        obtain ⟨h1, h2⟩ := hty
        subst h1
        obtain ⟨b, hb⟩ := ih ts as (by simpa using hlen) h2
        exact ⟨.cons b x x k, by simp [keys_tuple_impl.construct, hb]⟩

theorem erd_impl.keys_tuple_impl.construct_slots [DecidableEq U] (keys : List K) (types : List U)
    (args : List (Value U)) (b : keys_tuple_impl keys types)
    (h : keys_tuple_impl.construct keys types args = some b) :
    b.slots = List.zipWith (fun v k => (v, v, k)) args keys ∧ args.map Sigma.fst = types := by
  induction b generalizing args with
  | nil =>
    cases args with
    | nil => simp [keys_tuple_impl.slots]
    | cons a as => simp [keys_tuple_impl.construct] at h
  | @cons First_k Others_k First_t Others_t b v d k ih =>
    cases args with
    | nil => simp [keys_tuple_impl.construct] at h
    | cons a as =>
      obtain ⟨u, x⟩ := a
      simp only [keys_tuple_impl.construct] at h
      by_cases e : u = First_t
      · subst e
        simp only [dif_pos] at h
        cases hb : keys_tuple_impl.construct Others_k Others_t as with
        | none => simp [hb] at h
        | some b1 =>
          simp only [hb, Option.some.injEq, keys_tuple_impl.cons.injEq] at h
          obtain ⟨h1, h2, h3, h4⟩ := h
          subst h1 h2 h3 h4
          obtain ⟨i1, i2⟩ := ih as hb
          simp [keys_tuple_impl.slots, i1, i2]
      · simp [e] at h

omit [CppTypes U] in
theorem keys_tuple.well_formed_iff [DecidableEq U] (keys : List K) (types : List U) :
    keys_tuple.well_formed keys types = true ↔ keys.length = types.length ∧ keys ≠ [] := by
  unfold keys_tuple.well_formed keys_tuple.constructors
  simp only [Bool.and_eq_true, keys_tuple_impl.complete_iff, decide_eq_true_eq,
    List.nodup_cons, List.mem_singleton, List.not_mem_nil, not_false_eq_true, List.nodup_nil,
    and_true]
  constructor
  · rintro ⟨⟨h1, _⟩, h3⟩
    refine ⟨h1, ?_⟩
    rintro rfl
    cases types with
    | nil => exact h3 rfl
    | cons t ts => simp at h1
  · rintro ⟨h1, h2⟩
    refine ⟨⟨h1, h1⟩, ?_⟩
    rintro rfl
    cases keys with
    | nil => exact h2 rfl
    | cons k ks => simp at h1

theorem keys_tuple.construct_nonempty [DecidableEq U] (keys : List K) (types : List U)
    (args : List (Value U)) (hargs : args ≠ []) (r : keys_tuple keys types) :
    keys_tuple.construct keys types args = some r ↔
      keys_tuple.well_formed keys types = true ∧
        keys_tuple_impl.construct keys types args = some r.impl := by
  cases args with
  | nil => exact absurd rfl hargs
  | cons a as =>
    unfold keys_tuple.construct
    cases hw : keys_tuple.well_formed keys types with
    | false => simp
    | true =>
      cases hb : keys_tuple_impl.construct keys types (a :: as) with
      | none => simp
      | some b =>
        cases r with
        | mk ri => simp

theorem keys_tuple.construct_nil [DecidableEq U] (keys : List K) (types : List U)
    (r : keys_tuple keys types) :
    keys_tuple.construct keys types [] = some r ↔
      keys_tuple.well_formed keys types = true ∧
        keys_tuple_impl.construct keys types (types.map fun t => ⟨t, CppTypes.dflt t⟩) =
          some r.impl := by
  unfold keys_tuple.construct
  cases hw : keys_tuple.well_formed keys types with
  | false => simp
  | true =>
    cases hb : keys_tuple_impl.construct keys types
        (types.map fun t => (⟨t, CppTypes.dflt t⟩ : Value U)) with
    | none => simp
    | some b =>
      cases r with
      | mk ri => simp

/-- C1: on the record constructed from a well-typed argument list for pairwise
distinct keys, `get` of the key at each position returns the argument at that
position, and reading all keys in definition order gives back the argument
list; for a non-empty key list the construction succeeds. -/
theorem C1_get_after_construct [DecidableEq K] [DecidableEq U] (keys : List K)
    (types : List U) (args : List (Value U)) (hnodup : keys.Nodup)
    (hlen : keys.length = types.length) (hty : args.map Sigma.fst = types) :
    (keys ≠ [] → ∃ r, keys_tuple.construct keys types args = some r) ∧
      ∀ r, keys_tuple.construct keys types args = some r →
        (∀ (k : Nat) (Key : K) (v : Value U),
            keys[k]? = some Key → args[k]? = some v → r.get Key = some v) ∧
          keys.map (fun Key => r.get Key) = args.map some := by
  have hal : args.length = keys.length := by
    rw [hlen, ← hty, List.length_map]
  constructor
  · intro hne
    have hargs : args ≠ [] := by
      rintro rfl
      exact hne (List.length_eq_zero.mp hal.symm)
    obtain ⟨b, hb⟩ := keys_tuple_impl.construct_some keys types args hlen hty
    exact ⟨⟨b⟩, (keys_tuple.construct_nonempty keys types args hargs ⟨b⟩).mpr
      ⟨(keys_tuple.well_formed_iff keys types).mpr ⟨hlen, hne⟩, hb⟩⟩
  · intro r hr
    have hargs : args ≠ [] := by
      rintro rfl
      have hk : keys = [] := List.length_eq_zero.mp hal.symm
      have hw := ((keys_tuple.construct_nil keys types r).mp hr).1
      exact ((keys_tuple.well_formed_iff keys types).mp hw).2 hk
    have hb := ((keys_tuple.construct_nonempty keys types args hargs r).mp hr).2
    have hs := (keys_tuple_impl.construct_slots keys types args r.impl hb).1
    have hpt : ∀ (k : Nat) (Key : K) (v : Value U),
        keys[k]? = some Key → args[k]? = some v → r.get Key = some v := by
      intro k Key v hk hv
      have hklt : k < keys.length := (List.getElem?_eq_some.mp hk).1
      have hkeq : keys[k] = Key := (List.getElem?_eq_some.mp hk).2
      have hmem : Key ∈ keys := hkeq ▸ List.getElem_mem hklt
      have hidx : keys.indexOf Key = k := by
        rw [← hkeq]; exact List.indexOf_getElem hnodup k hklt
      have := keys_tuple.get_eq_slot r.impl Key hmem
      rw [hidx, hs] at this
      rw [show r = ⟨r.impl⟩ from rfl, this]
      simp [List.getElem?_zipWith, hk, hv]
    refine ⟨hpt, ?_⟩
    apply List.ext_getElem?
    intro i
    simp only [List.getElem?_map]
    cases hk : keys[i]? with
    | none =>
      have : args[i]? = none := by
        rw [List.getElem?_eq_none_iff] at hk ⊢
        omega
      simp [this]
    | some Key =>
      have hi : i < args.length := by
        have := (List.getElem?_eq_some.mp hk).1
        omega
      have hv : args[i]? = some args[i] := List.getElem?_eq_getElem hi
      simp [hv, hpt i Key _ hk hv]

/-- Witness of C1 on the record `foo` of main.cpp. -/
theorem C1_get_after_construct_witness :
    main.foo_keys.Nodup ∧ main.foo_keys.length = main.foo_types.length ∧
      (main.foo_args 7).map Sigma.fst = main.foo_types ∧
      ((main.foo_keys ≠ [] →
          ∃ r, keys_tuple.construct main.foo_keys main.foo_types (main.foo_args 7) = some r) ∧
        ∀ r, keys_tuple.construct main.foo_keys main.foo_types (main.foo_args 7) = some r →
          (∀ (k : Nat) (Key : main.StaticArray) (v : Value main.Ty),
              main.foo_keys[k]? = some Key → (main.foo_args 7)[k]? = some v →
                r.get Key = some v) ∧
            main.foo_keys.map (fun Key => r.get Key) = (main.foo_args 7).map some) :=
  ⟨by decide, rfl, rfl,
    C1_get_after_construct main.foo_keys main.foo_types (main.foo_args 7) (by decide) rfl rfl⟩

/-! ## Resolution of a key -/

theorem erd_impl.access_helper.resolve_of_mem [DecidableEq K] (Key : K) (keys : List K)
    (types : List U) (hK : Key ∈ keys) (hlen : keys.length = types.length) :
    ∃ h, access_helper.resolve Key keys types = some h := by
  induction keys generalizing types with
  | nil => simp at hK
  | cons k ks ih =>
    cases types with
    | nil => simp at hlen
    | cons t ts =>
      have hc : keys_tuple_impl.complete (k :: ks) (t :: ts) = true :=
        (keys_tuple_impl.complete_iff _ _).mpr hlen
      by_cases e : Key = k
      · simp only [access_helper.resolve, e, hc, if_true]
        exact ⟨_, rfl⟩
      · have hmem : Key ∈ ks := by
          rcases List.mem_cons.mp hK with h1 | h1
          · exact absurd h1 e
          · exact h1
        obtain ⟨h, hh⟩ := ih ts hmem (by simpa using hlen)
        simp only [access_helper.resolve, e, hh, if_false]
        exact ⟨_, rfl⟩

theorem erd_impl.access_helper.resolve_of_not_mem [DecidableEq K] (Key : K) (keys : List K)
    (types : List U) (hK : Key ∉ keys) :
    access_helper.resolve Key keys types = none := by
  induction keys generalizing types with
  | nil => cases types <;> rfl
  | cons k ks ih =>
    cases types with
    | nil => rfl
    | cons t ts =>
      have e : Key ≠ k := fun e => hK (e ▸ List.mem_cons_self _ _)
      have hmem : Key ∉ ks := fun h => hK (List.mem_cons_of_mem _ h)
      simp only [access_helper.resolve, e, ih ts hmem, if_false]

/-! ## Effect of set -/

theorem keys_tuple.get_of_helper [DecidableEq K] {keys : List K} {types : List U} (Key : K)
    (r : keys_tuple keys types) (h : access_helper Key keys types)
    (hh : keys_tuple.access_helper_t Key keys types = some h) :
    r.get Key = some ⟨h.value_type, h.get r.impl⟩ := by
  simp only [keys_tuple.get, hh]

theorem keys_tuple.set_of_helper [DecidableEq K] [DecidableEq U] {keys : List K}
    {types : List U} (Key : K) (r : keys_tuple keys types) (h : access_helper Key keys types)
    (hh : keys_tuple.access_helper_t Key keys types = some h) (v : CppTypes.El h.value_type) :
    r.set Key ⟨h.value_type, v⟩ = some ⟨h.set v r.impl⟩ := by
  simp only [keys_tuple.set, hh, dif_pos]

theorem keys_tuple.get_set_same [DecidableEq K] [DecidableEq U] {keys : List K}
    {types : List U} (b : keys_tuple_impl keys types) (Key : K) (value : Value U)
    (r1 : keys_tuple keys types) (h : (keys_tuple.mk b).set Key value = some r1) :
    r1.get Key = some value := by
  induction b with
  | nil => simp [keys_tuple.set_nil] at h
  | @cons First_k Others_k First_t Others_t b v d k ih =>
    rw [keys_tuple.set_cons] at h
    by_cases e : Key = First_k
    · rw [if_pos e] at h
      obtain ⟨u, x⟩ := value
      by_cases e2 : u = First_t
      · subst e2
        simp only [dif_pos, Option.some.injEq] at h
        subst h
        rw [keys_tuple.get_cons, if_pos e]
      · simp [e2] at h
    · rw [if_neg e] at h
      cases hs : (keys_tuple.mk b).set Key value with
      | none => simp [hs] at h
      | some b1 =>
        simp only [hs, Option.map_some', Option.some.injEq] at h
        subst h
        rw [keys_tuple.get_cons, if_neg e]
        exact ih b1 hs

theorem keys_tuple.get_set_other [DecidableEq K] [DecidableEq U] {keys : List K}
    {types : List U} (b : keys_tuple_impl keys types) (Key J : K) (hJ : J ≠ Key)
    (value : Value U) (r1 : keys_tuple keys types)
    (h : (keys_tuple.mk b).set Key value = some r1) :
    r1.get J = (keys_tuple.mk b).get J := by
  induction b with
  | nil => simp [keys_tuple.set_nil] at h
  | @cons First_k Others_k First_t Others_t b v d k ih =>
    rw [keys_tuple.set_cons] at h
    by_cases e : Key = First_k
    · rw [if_pos e] at h
      have e3 : J ≠ First_k := e ▸ hJ
      by_cases e2 : value.1 = First_t
      · simp only [e2, dif_pos, Option.some.injEq] at h
        subst h
        rw [keys_tuple.get_cons, keys_tuple.get_cons, if_neg e3, if_neg e3]
      · simp [e2] at h
    · rw [if_neg e] at h
      cases hs : (keys_tuple.mk b).set Key value with
      | none => simp [hs] at h
      | some b1 =>
        simp only [hs, Option.map_some', Option.some.injEq] at h
        subst h
        rw [keys_tuple.get_cons, keys_tuple.get_cons, ih b1 hs]

theorem keys_tuple.slots_set [DecidableEq K] [DecidableEq U] {keys : List K}
    {types : List U} (b : keys_tuple_impl keys types) (Key : K)
    (value : Value U) (r1 : keys_tuple keys types)
    (h : (keys_tuple.mk b).set Key value = some r1) :
    r1.impl.slots.map Prod.snd = b.slots.map Prod.snd ∧
      ∀ i : Nat, i ≠ keys.indexOf Key → r1.impl.slots[i]? = b.slots[i]? := by
  induction b with
  | nil => simp [keys_tuple.set_nil] at h
  | @cons First_k Others_k First_t Others_t b v d k ih =>
    rw [keys_tuple.set_cons] at h
    by_cases e : Key = First_k
    · rw [if_pos e] at h
      by_cases e2 : value.1 = First_t
      · simp only [e2, dif_pos, Option.some.injEq] at h
        subst h
        subst e
        refine ⟨by simp [keys_tuple_impl.slots], ?_⟩
        intro i hi
        cases i with
        | zero => simp at hi
        | succ j => simp [keys_tuple_impl.slots]
      · simp [e2] at h
    · rw [if_neg e] at h
      cases hs : (keys_tuple.mk b).set Key value with
      | none => simp [hs] at h
      | some b1 =>
        simp only [hs, Option.map_some', Option.some.injEq] at h
        subst h
        obtain ⟨i1, i2⟩ := ih b1 hs
        refine ⟨by simp [keys_tuple_impl.slots, i1], ?_⟩
        intro i hi
        cases i with
        | zero => simp [keys_tuple_impl.slots]
        | succ j =>
          rw [List.indexOf_cons_ne _ (Ne.symm e)] at hi
          simpa [keys_tuple_impl.slots] using i2 j (by omega)

/-! ## Claims -/

theorem main.foo_eq (ticks : Int) : main.foo ticks = some (main.foo_record ticks) := rfl

/-- C2: for a key of the definition the helper resolves, and for every value `v`
of its `value_type`, `set<Key>(v)` succeeds and `get<Key>()` on the resulting
record returns `v`. -/
theorem C2_get_after_set [DecidableEq K] [DecidableEq U] {keys : List K} {types : List U}
    (r : keys_tuple keys types) (Key : K) (hK : Key ∈ keys) :
    ∃ h, keys_tuple.access_helper_t Key keys types = some h ∧
      ∀ v : CppTypes.El h.value_type,
        ∃ r1, r.set Key ⟨h.value_type, v⟩ = some r1 ∧
          r1.get Key = some ⟨h.value_type, v⟩ := by
  obtain ⟨h, hh⟩ := access_helper.resolve_of_mem Key keys types hK r.impl.length_eq
  refine ⟨h, hh, fun v => ⟨⟨h.set v r.impl⟩, keys_tuple.set_of_helper Key r h hh v, ?_⟩⟩
  exact keys_tuple.get_set_same r.impl Key _ _ (keys_tuple.set_of_helper Key r h hh v)

/-- Witness of C2 on `foo` and `KEY_INT`. -/
theorem C2_get_after_set_witness :
    main.StaticArray.KEY_INT ∈ main.foo_keys ∧
      ∃ h, keys_tuple.access_helper_t main.StaticArray.KEY_INT main.foo_keys main.foo_types
          = some h ∧
        ∀ v : CppTypes.El h.value_type,
          ∃ r1, (main.foo_record 7).set main.StaticArray.KEY_INT ⟨h.value_type, v⟩ = some r1 ∧
            r1.get main.StaticArray.KEY_INT = some ⟨h.value_type, v⟩ :=
  ⟨by decide, C2_get_after_set (main.foo_record 7) main.StaticArray.KEY_INT (by decide)⟩

/-- C3: `set<Key>(v)` leaves what `get<J>()` returns unchanged for every other
key `J`; in the scenario of the record built from ("Hello world", 42),
`get<KEY_HELLO>()` after `set<KEY_INT>(43)` is still "Hello world". The statement
does not need the keys to be pairwise distinct. -/
theorem C3_set_keeps_other_slots [DecidableEq K] [DecidableEq U] {keys : List K}
    {types : List U} (r : keys_tuple keys types) (Key : K) (hK : Key ∈ keys) :
    (∃ h, keys_tuple.access_helper_t Key keys types = some h ∧
      ∀ v : CppTypes.El h.value_type,
        ∃ r1, r.set Key ⟨h.value_type, v⟩ = some r1 ∧
          ∀ J : K, J ≠ Key → r1.get J = r.get J) ∧
      ((keys_tuple.construct [main.StaticArray.KEY_HELLO, main.StaticArray.KEY_INT]
          [main.Ty.string, main.Ty.int]
          [⟨main.Ty.string, "Hello world"⟩, ⟨main.Ty.int, (42 : Int)⟩]).bind fun foo =>
        (foo.set main.StaticArray.KEY_INT ⟨main.Ty.int, (43 : Int)⟩).bind fun foo1 =>
          foo1.get main.StaticArray.KEY_HELLO) = some ⟨main.Ty.string, "Hello world"⟩ := by
  refine ⟨?_, rfl⟩
  obtain ⟨h, hh⟩ := access_helper.resolve_of_mem Key keys types hK r.impl.length_eq
  refine ⟨h, hh, fun v => ⟨⟨h.set v r.impl⟩, keys_tuple.set_of_helper Key r h hh v, ?_⟩⟩
  intro J hJ
  exact keys_tuple.get_set_other r.impl Key J hJ _ _ (keys_tuple.set_of_helper Key r h hh v)

/-- Witness of C3 on `foo` and `KEY_INT`. -/
theorem C3_set_keeps_other_slots_witness :
    main.StaticArray.KEY_INT ∈ main.foo_keys ∧
      ((∃ h, keys_tuple.access_helper_t main.StaticArray.KEY_INT main.foo_keys main.foo_types
          = some h ∧
        ∀ v : CppTypes.El h.value_type,
          ∃ r1, (main.foo_record 7).set main.StaticArray.KEY_INT ⟨h.value_type, v⟩ = some r1 ∧
            ∀ J : main.StaticArray, J ≠ main.StaticArray.KEY_INT →
              r1.get J = (main.foo_record 7).get J) ∧
        ((keys_tuple.construct [main.StaticArray.KEY_HELLO, main.StaticArray.KEY_INT]
            [main.Ty.string, main.Ty.int]
            [⟨main.Ty.string, "Hello world"⟩, ⟨main.Ty.int, (42 : Int)⟩]).bind fun foo =>
          (foo.set main.StaticArray.KEY_INT ⟨main.Ty.int, (43 : Int)⟩).bind fun foo1 =>
            foo1.get main.StaticArray.KEY_HELLO) = some ⟨main.Ty.string, "Hello world"⟩) :=
  ⟨by decide,
    C3_set_keeps_other_slots (main.foo_record 7) main.StaticArray.KEY_INT (by decide)⟩

/-- C4: `set<Key>(v)` leaves `m_defVal` (and `m_key`) of every slot as it was,
the slot of `Key` included, and leaves every slot other than the one `Key`
resolves to entirely unchanged. -/
theorem C4_set_keeps_default_snapshots [DecidableEq K] [DecidableEq U] {keys : List K}
    {types : List U} (r : keys_tuple keys types) (Key : K) (hK : Key ∈ keys) :
    ∃ h, keys_tuple.access_helper_t Key keys types = some h ∧
      ∀ v : CppTypes.El h.value_type,
        ∃ r1, r.set Key ⟨h.value_type, v⟩ = some r1 ∧
          r1.impl.slots.map Prod.snd = r.impl.slots.map Prod.snd ∧
            ∀ i : Nat, i ≠ keys.indexOf Key → r1.impl.slots[i]? = r.impl.slots[i]? := by
  obtain ⟨h, hh⟩ := access_helper.resolve_of_mem Key keys types hK r.impl.length_eq
  refine ⟨h, hh, fun v => ⟨⟨h.set v r.impl⟩, keys_tuple.set_of_helper Key r h hh v, ?_⟩⟩
  exact keys_tuple.slots_set r.impl Key _ _ (keys_tuple.set_of_helper Key r h hh v)

/-- Witness of C4 on `foo` and `KEY_INT`. -/
theorem C4_set_keeps_default_snapshots_witness :
    main.StaticArray.KEY_INT ∈ main.foo_keys ∧
      ∃ h, keys_tuple.access_helper_t main.StaticArray.KEY_INT main.foo_keys main.foo_types
          = some h ∧
        ∀ v : CppTypes.El h.value_type,
          ∃ r1, (main.foo_record 7).set main.StaticArray.KEY_INT ⟨h.value_type, v⟩ = some r1 ∧
            r1.impl.slots.map Prod.snd = (main.foo_record 7).impl.slots.map Prod.snd ∧
              ∀ i : Nat, i ≠ main.foo_keys.indexOf main.StaticArray.KEY_INT →
                r1.impl.slots[i]? = (main.foo_record 7).impl.slots[i]? :=
  ⟨by decide,
    C4_set_keeps_default_snapshots (main.foo_record 7) main.StaticArray.KEY_INT (by decide)⟩

/-- C5: for a key that is not in the key list no helper is found, whatever the
type list: the search ends at the primary template. `get` and `set` with that
key yield nothing, neither a value nor a modified record. -/
theorem C5_unknown_key_rejected [DecidableEq K] [DecidableEq U] (keys : List K)
    (types : List U) (Key : K) (hK : Key ∉ keys) :
    keys_tuple.access_helper_t Key keys types = none ∧
      ∀ r : keys_tuple keys types,
        r.get Key = none ∧ ∀ value : Value U, r.set Key value = none := by
  have hh : keys_tuple.access_helper_t Key keys types = none :=
    access_helper.resolve_of_not_mem Key keys types hK
  refine ⟨hh, fun r => ⟨?_, fun value => ?_⟩⟩
  · simp only [keys_tuple.get, hh]
  · simp only [keys_tuple.set, hh]

/-- Witness of C5: `KEY_FAILURE` on the lists of `foo` (main.cpp 47-49). -/
theorem C5_unknown_key_rejected_witness :
    main.StaticArray.KEY_FAILURE ∉ main.foo_keys ∧
      (keys_tuple.access_helper_t main.StaticArray.KEY_FAILURE main.foo_keys main.foo_types
          = none ∧
        ∀ r : keys_tuple main.foo_keys main.foo_types,
          r.get main.StaticArray.KEY_FAILURE = none ∧
            ∀ value : Value main.Ty, r.set main.StaticArray.KEY_FAILURE value = none) :=
  ⟨by decide,
    C5_unknown_key_rejected main.foo_keys main.foo_types main.StaticArray.KEY_FAILURE
      (by decide)⟩

/-- C6: key and type lists of different lengths do not give a record type:
the class `keys_tuple` of these lists is not well-formed, no constructor call
compiles whatever the arguments, and there is no record value of that shape. -/
theorem C6_arity_mismatch_rejected [DecidableEq U] (keys : List K) (types : List U)
    (h : keys.length ≠ types.length) :
    keys_tuple.well_formed keys types = false ∧
      (∀ args : List (Value U), keys_tuple.construct keys types args = none) ∧
        IsEmpty (keys_tuple keys types) := by
  have hw : keys_tuple.well_formed keys types = false := by
    cases hw : keys_tuple.well_formed keys types with
    | false => rfl
    | true => exact absurd ((keys_tuple.well_formed_iff keys types).mp hw).1 h
  refine ⟨hw, fun args => ?_, ⟨fun r => h r.impl.length_eq⟩⟩
  simp [keys_tuple.construct, hw]

/-- Witness of C6: three keys paired with two types. -/
theorem C6_arity_mismatch_rejected_witness :
    main.foo_keys.length ≠ [main.Ty.string, main.Ty.int].length ∧
      (keys_tuple.well_formed main.foo_keys [main.Ty.string, main.Ty.int] = false ∧
        (∀ args : List (Value main.Ty),
          keys_tuple.construct main.foo_keys [main.Ty.string, main.Ty.int] args = none) ∧
          IsEmpty (keys_tuple main.foo_keys [main.Ty.string, main.Ty.int])) :=
  ⟨by decide, C6_arity_mismatch_rejected main.foo_keys [main.Ty.string, main.Ty.int] (by decide)⟩

theorem erd_impl.keys_tuple_impl.construct_length [DecidableEq U] (keys : List K)
    (types : List U) (args : List (Value U)) (b : keys_tuple_impl keys types)
    (h : keys_tuple_impl.construct keys types args = some b) : args.length = keys.length := by
  have h2 := (keys_tuple_impl.construct_slots keys types args b h).2
  rw [b.length_eq, ← h2, List.length_map]

/-- Constructor calls on a record type of `N ≥ 1` slots: no argument and `N`
arguments of the listed types compile, every other number of arguments does
not. -/
theorem keys_tuple.construct_arity [DecidableEq U] (keys : List K) (types : List U)
    (hlen : keys.length = types.length) (hne : keys ≠ []) :
    (∃ r, keys_tuple.construct keys types [] = some r) ∧
      (∀ args : List (Value U), args.map Sigma.fst = types →
        ∃ r, keys_tuple.construct keys types args = some r) ∧
        ∀ args : List (Value U), args.length ≠ 0 → args.length ≠ keys.length →
          keys_tuple.construct keys types args = none := by
  have hw := (keys_tuple.well_formed_iff keys types).mpr ⟨hlen, hne⟩
  have hN : ∀ args : List (Value U), args.map Sigma.fst = types →
      ∃ r, keys_tuple.construct keys types args = some r := by
    intro args hty
    have hargs : args ≠ [] := by
      rintro rfl
      simp only [List.map_nil] at hty
      rw [← hty] at hlen
      exact hne (List.length_eq_zero.mp hlen)
    obtain ⟨b, hb⟩ := keys_tuple_impl.construct_some keys types args hlen hty
    exact ⟨⟨b⟩, (keys_tuple.construct_nonempty keys types args hargs ⟨b⟩).mpr ⟨hw, hb⟩⟩
  refine ⟨?_, hN, ?_⟩
  · obtain ⟨b, hb⟩ := keys_tuple_impl.construct_some keys types
      (types.map fun t => (⟨t, CppTypes.dflt t⟩ : Value U)) hlen (by simp [Function.comp_def])
    exact ⟨⟨b⟩, (keys_tuple.construct_nil keys types ⟨b⟩).mpr ⟨hw, hb⟩⟩
  · intro args h0 hN
    have hargs : args ≠ [] := fun e => h0 (by simp [e])
    cases hc : keys_tuple.construct keys types args with
    | none => rfl
    | some r =>
      have hb := ((keys_tuple.construct_nonempty keys types args hargs r).mp hc).2
      exact absurd (keys_tuple_impl.construct_length keys types args r.impl hb) hN

/-- C7 for the empty record: for the empty key and type lists, which have the
same length 0, the two constructors of `keys_tuple` have the same parameter
list, the class is not well-formed, and the construction without arguments
does not compile. -/
theorem C7_empty_record_not_constructible :
    ([] : List main.StaticArray).length = ([] : List main.Ty).length ∧
      keys_tuple.constructors ([] : List main.Ty) = [[], []] ∧
      keys_tuple.well_formed ([] : List main.StaticArray) ([] : List main.Ty) = false ∧
      keys_tuple.construct ([] : List main.StaticArray) ([] : List main.Ty) [] = none :=
  ⟨rfl, rfl, rfl, rfl⟩

theorem zipWith_both_fields {α β : Type} (as : List α) (ks : List β)
    (h : as.length = ks.length) :
    (List.zipWith (fun v k => (v, v, k)) as ks).map (fun s => (s.1, s.2.1)) =
      as.map fun v => (v, v) := by
  induction as generalizing ks with
  | nil => simp
  | cons a as ih =>
    cases ks with
    | nil => simp at h
    | cons k ks => simp [ih ks (by simpa using h)]

/-- C8: the record constructed from a non-empty well-typed argument list
`(v0, ..., vN-1)` exists and its slot at each position `i` holds `v_i` both as
`m_value` and as `m_defVal`. -/
theorem C8_construct_initialises_both_fields [DecidableEq U] (keys : List K) (types : List U)
    (args : List (Value U)) (hlen : keys.length = types.length)
    (hty : args.map Sigma.fst = types) (hargs : args ≠ []) :
    ∃ r, keys_tuple.construct keys types args = some r ∧
      r.impl.slots.map (fun s => (s.1, s.2.1)) = args.map fun v => (v, v) := by
  have hal : args.length = keys.length := by
    rw [hlen, ← hty, List.length_map]
  have hne : keys ≠ [] := by
    rintro rfl
    exact hargs (List.length_eq_zero.mp hal)
  obtain ⟨b, hb⟩ := keys_tuple_impl.construct_some keys types args hlen hty
  refine ⟨⟨b⟩, (keys_tuple.construct_nonempty keys types args hargs ⟨b⟩).mpr
    ⟨(keys_tuple.well_formed_iff keys types).mpr ⟨hlen, hne⟩, hb⟩, ?_⟩
  rw [(keys_tuple_impl.construct_slots keys types args b hb).1]
  exact zipWith_both_fields args keys hal

/-- Witness of C8 on the constructor call of main.cpp 22. -/
theorem C8_construct_initialises_both_fields_witness :
    main.foo_keys.length = main.foo_types.length ∧
      (main.foo_args 7).map Sigma.fst = main.foo_types ∧ main.foo_args 7 ≠ [] ∧
      ∃ r, keys_tuple.construct main.foo_keys main.foo_types (main.foo_args 7) = some r ∧
        r.impl.slots.map (fun s => (s.1, s.2.1)) = (main.foo_args 7).map fun v => (v, v) :=
  ⟨rfl, rfl, by simp [main.foo_args],
    C8_construct_initialises_both_fields main.foo_keys main.foo_types (main.foo_args 7) rfl rfl
      (by simp [main.foo_args])⟩

/-- C9: for every record type, construction without arguments succeeds and
gives the same record as construction from the values `(T0(), ..., TN-1())`; in
every slot `m_value` and `m_defVal` are the default-constructed value of the
slot's type. -/
theorem C9_default_construct [DecidableEq U] (keys : List K) (types : List U)
    (hw : keys_tuple.well_formed keys types = true) :
    ∃ r, keys_tuple.construct keys types [] = some r ∧
      keys_tuple.construct keys types (types.map fun t => ⟨t, CppTypes.dflt t⟩) = some r ∧
        r.impl.slots.map (fun s => (s.1, s.2.1)) =
          types.map fun t => (⟨t, CppTypes.dflt t⟩, ⟨t, CppTypes.dflt t⟩) := by
  obtain ⟨hlen, hne⟩ := (keys_tuple.well_formed_iff keys types).mp hw
  have hty : (types.map fun t => (⟨t, CppTypes.dflt t⟩ : Value U)).map Sigma.fst = types := by
    simp [Function.comp_def]
  have hargs : (types.map fun t => (⟨t, CppTypes.dflt t⟩ : Value U)) ≠ [] := by
    intro e
    have : types = [] := List.map_eq_nil_iff.mp e
    rw [this] at hlen
    exact hne (List.length_eq_zero.mp hlen)
  obtain ⟨b, hb⟩ := keys_tuple_impl.construct_some keys types _ hlen hty
  refine ⟨⟨b⟩, (keys_tuple.construct_nil keys types ⟨b⟩).mpr ⟨hw, hb⟩,
    (keys_tuple.construct_nonempty keys types _ hargs ⟨b⟩).mpr ⟨hw, hb⟩, ?_⟩
  rw [(keys_tuple_impl.construct_slots keys types _ b hb).1,
    zipWith_both_fields _ keys (by simp [hlen]), List.map_map]
  rfl

/-- Witness of C9 on the record type of `foo`. -/
theorem C9_default_construct_witness :
    keys_tuple.well_formed main.foo_keys main.foo_types = true ∧
      ∃ r, keys_tuple.construct main.foo_keys main.foo_types [] = some r ∧
        keys_tuple.construct main.foo_keys main.foo_types
            (main.foo_types.map fun t => ⟨t, CppTypes.dflt t⟩) = some r ∧
          r.impl.slots.map (fun s => (s.1, s.2.1)) =
            main.foo_types.map fun t => (⟨t, CppTypes.dflt t⟩, ⟨t, CppTypes.dflt t⟩) :=
  ⟨rfl, C9_default_construct main.foo_keys main.foo_types rfl⟩

theorem keys_tuple.run_replicate_get [DecidableEq K] [DecidableEq U] {keys : List K}
    {types : List U} (r : keys_tuple keys types) (Key : K) (v : Value U)
    (h : r.get Key = some v) (n : Nat) :
    r.run (List.replicate n (Call.get Key)) = some (r, List.replicate n v) := by
  induction n with
  | zero => rfl
  | succ n ih => simp only [List.replicate_succ, keys_tuple.run, h, ih]

theorem main.int_add_eq (a b : Int) (h1 : -2 ^ 31 ≤ a + b) (h2 : a + b < 2 ^ 31) :
    main.int_add a b = a + b := by
  unfold main.int_add
  norm_num at h1 h2 ⊢
  omega

theorem main.read_loop_eq {keys : List main.StaticArray} {types : List main.Ty}
    (foo : keys_tuple keys types) (v : Int)
    (h : foo.get main.StaticArray.KEY_INT = some ⟨main.Ty.int, v⟩) (hv : 0 ≤ v) (n : Nat)
    (counter : Int) (h0 : 0 ≤ counter) (h1 : counter + n * v < 2 ^ 31) :
    main.read_loop foo n counter = some (counter + n * v) := by
  induction n generalizing counter with
  | zero => simp [main.read_loop]
  | succ n ih =>
    have hnv : 0 ≤ (n : Int) * v := Int.mul_nonneg (Int.ofNat_nonneg n) hv
    have hexp : ((n + 1 : Nat) : Int) * v = n * v + v := by push_cast; ring
    rw [hexp] at h1 ⊢
    have e : main.int_add counter v = counter + v :=
      main.int_add_eq counter v (by norm_num; omega) (by omega)
    simp only [main.read_loop, h, e]
    rw [ih (counter + v) (by omega) (by omega)]
    congr 1
    ring

/-- C10: for a key of the definition, `n ≥ 1` successive `get<Key>()` calls all
return one and the same value and leave the record as it was; the loop of
main.cpp that adds 1,000,000 reads of the slot `KEY_INT` holding 42 to
`counter` ends with 42,000,000. -/
theorem C10_reads_idempotent [DecidableEq K] [DecidableEq U] {keys : List K}
    {types : List U} (r : keys_tuple keys types) (Key : K) (hK : Key ∈ keys) (n : Nat)
    (_hn : 1 ≤ n) :
    (∃ v, r.run (List.replicate n (Call.get Key)) = some (r, List.replicate n v)) ∧
      ∀ ticks : Int, ∃ foo, main.foo ticks = some foo ∧
        main.read_loop foo 1000000 0 = some 42000000 := by
  constructor
  · obtain ⟨h, hh⟩ := access_helper.resolve_of_mem Key keys types hK r.impl.length_eq
    exact ⟨_, keys_tuple.run_replicate_get r Key _ (keys_tuple.get_of_helper Key r h hh) n⟩
  · intro ticks
    refine ⟨main.foo_record ticks, rfl, ?_⟩
    have := main.read_loop_eq (main.foo_record ticks) 42 rfl (by norm_num) 1000000 0
      (le_refl 0) (by norm_num)
    rw [this]
    norm_num

/-- Witness of C10: three reads of `KEY_INT` on `foo`. -/
theorem C10_reads_idempotent_witness :
    main.StaticArray.KEY_INT ∈ main.foo_keys ∧ 1 ≤ 3 ∧
      ((∃ v, (main.foo_record 7).run (List.replicate 3 (Call.get main.StaticArray.KEY_INT)) =
          some (main.foo_record 7, List.replicate 3 v)) ∧
        ∀ ticks : Int, ∃ foo, main.foo ticks = some foo ∧
          main.read_loop foo 1000000 0 = some 42000000) :=
  ⟨by decide, by decide,
    C10_reads_idempotent (main.foo_record 7) main.StaticArray.KEY_INT (by decide) 3
      (by decide)⟩

/-! ## First occurrence of a key -/

omit [CppTypes U] in
theorem indexOf_le_of_getElem? [DecidableEq K] (keys : List K) (Key : K) (i : Nat)
    (hi : keys[i]? = some Key) : keys.indexOf Key ≤ i := by
  induction keys generalizing i with
  | nil => simp at hi
  | cons k ks ih =>
    by_cases e : k = Key
    · rw [List.indexOf_cons_eq _ e]
      omega
    · rw [List.indexOf_cons_ne _ e]
      cases i with
      | zero =>
        simp only [List.getElem?_cons_zero, Option.some.injEq] at hi
        exact absurd hi e
      | succ n =>
        have := ih n (by simpa using hi)
        omega

omit [CppTypes U] in
theorem getElem?_indexOf [DecidableEq K] (keys : List K) (Key : K) (hmem : Key ∈ keys) :
    keys[keys.indexOf Key]? = some Key := by
  have hlt : keys.indexOf Key < keys.length := List.indexOf_lt_length.mpr hmem
  rw [List.getElem?_eq_getElem hlt]
  exact congrArg some (List.indexOf_get hlt)

omit [CppTypes U] in
theorem indexOf_eq_of_first [DecidableEq K] (keys : List K) (Key : K) (i : Nat)
    (hi : keys[i]? = some Key) (hfirst : ∀ j : Nat, j < i → keys[j]? ≠ some Key) :
    keys.indexOf Key = i := by
  have hmem : Key ∈ keys := List.getElem?_mem hi
  have h1 : ¬ keys.indexOf Key < i := fun h => hfirst _ h (getElem?_indexOf keys Key hmem)
  have h2 := indexOf_le_of_getElem? keys Key i hi
  omega

theorem erd_impl.access_helper.resolve_value_type [DecidableEq K] (Key : K) (keys : List K)
    (types : List U) (h : access_helper Key keys types)
    (hh : access_helper.resolve Key keys types = some h) :
    types[keys.indexOf Key]? = some h.value_type := by
  induction keys generalizing types with
  | nil => cases types <;> simp [access_helper.resolve] at hh
  | cons k ks ih =>
    cases types with
    | nil => simp [access_helper.resolve] at hh
    | cons t ts =>
      by_cases e : Key = k
      · simp only [access_helper.resolve, e, if_true] at hh
        split at hh
        · cases hh
          subst e
          simp
        · cases hh
      · simp only [access_helper.resolve, e, if_false] at hh
        cases hn : access_helper.resolve Key ks ts with
        | none => simp [hn] at hh
        | some next =>
          simp only [hn, Option.some.injEq] at hh
          subst hh
          rw [List.indexOf_cons_ne _ (Ne.symm e)]
          simpa using ih ts next hn

/-! ## Sequences of calls -/

theorem keys_tuple.run_preserves [DecidableEq K] [DecidableEq U] {keys : List K}
    {types : List U} (P : keys_tuple keys types → Prop)
    (hset : ∀ (s s1 : keys_tuple keys types) (Key : K) (value : Value U),
      P s → s.set Key value = some s1 → P s1)
    (cs : List (Call K U)) (r r1 : keys_tuple keys types) (vs : List (Value U))
    (h : r.run cs = some (r1, vs)) (hr : P r) : P r1 := by
  induction cs generalizing r vs with
  | nil =>
    simp only [keys_tuple.run, Option.some.injEq, Prod.mk.injEq] at h
    exact h.1 ▸ hr
  | cons c cs ih =>
    cases c with
    | get Key =>
      simp only [keys_tuple.run] at h
      cases hg : r.get Key with
      | none => simp [hg] at h
      | some v =>
        cases hrest : r.run cs with
        | none => simp [hg, hrest] at h
        | some p =>
          obtain ⟨s, ws⟩ := p
          simp only [hg, hrest, Option.some.injEq, Prod.mk.injEq] at h
          exact ih r ws (h.1 ▸ hrest) hr
    | set Key value =>
      simp only [keys_tuple.run] at h
      cases hs : r.set Key value with
      | none => simp [hs] at h
      | some s =>
        simp only [hs] at h
        exact ih s vs h (hset r s Key value hr hs)

theorem keys_tuple.set_eq_none_of_not_mem [DecidableEq K] [DecidableEq U] {keys : List K}
    {types : List U} (r : keys_tuple keys types) (Key : K) (value : Value U)
    (h : Key ∉ keys) : r.set Key value = none := by
  have hh : keys_tuple.access_helper_t Key keys types = none :=
    access_helper.resolve_of_not_mem Key keys types h
  simp only [keys_tuple.set, hh]

/-- C11: when `Key` is listed at a first position `i` and again at a later
position `j`, the helper's `value_type` is the type at position `i`,
`get<Key>()` returns the live value of slot `i`, `set<Key>(v)` stores `v` in
slot `i` and leaves slot `j` as it was; no `get` of any key depends on what
slot `j` holds, and after any sequence of `get` and `set` calls slot `j` is
still what it was. -/
theorem C11_first_match_wins [DecidableEq K] [DecidableEq U] {keys : List K} {types : List U}
    (r : keys_tuple keys types) (Key : K) (i j : Nat) (hi : keys[i]? = some Key)
    (hfirst : ∀ n : Nat, n < i → keys[n]? ≠ some Key) (hj : keys[j]? = some Key)
    (hij : i < j) :
    ∃ h, keys_tuple.access_helper_t Key keys types = some h ∧
      types[i]? = some h.value_type ∧
      r.get Key = r.live_value_at i ∧
      (∀ v : CppTypes.El h.value_type,
        ∃ r1, r.set Key ⟨h.value_type, v⟩ = some r1 ∧
          r1.live_value_at i = some ⟨h.value_type, v⟩ ∧
          r1.impl.slots[j]? = r.impl.slots[j]?) ∧
      (∀ (J : K) (r2 : keys_tuple keys types),
        (∀ p : Nat, p ≠ j → r2.impl.slots[p]? = r.impl.slots[p]?) → r2.get J = r.get J) ∧
      ∀ (cs : List (Call K U)) (r1 : keys_tuple keys types) (vs : List (Value U)),
        r.run cs = some (r1, vs) → r1.impl.slots[j]? = r.impl.slots[j]? := by
  have hmem : Key ∈ keys := List.getElem?_mem hi
  have hidx : keys.indexOf Key = i := indexOf_eq_of_first keys Key i hi hfirst
  have hne : ∀ J : K, J ∈ keys → keys.indexOf J ≠ j := by
    intro J hJ e
    have h1 := getElem?_indexOf keys J hJ
    rw [e, hj, Option.some.injEq] at h1
    subst h1
    omega
  have hframe : ∀ (s s1 : keys_tuple keys types) (J : K) (value : Value U),
      s.set J value = some s1 → s1.impl.slots[j]? = s.impl.slots[j]? := by
    intro s s1 J value hs
    by_cases hJ : J ∈ keys
    · exact (keys_tuple.slots_set s.impl J value s1 hs).2 j (Ne.symm (hne J hJ))
    · rw [keys_tuple.set_eq_none_of_not_mem s J value hJ] at hs
      cases hs
  obtain ⟨h, hh⟩ := access_helper.resolve_of_mem Key keys types hmem r.impl.length_eq
  refine ⟨h, hh, ?_, ?_, ?_, ?_, ?_⟩
  · rw [← hidx]
    exact access_helper.resolve_value_type Key keys types h hh
  · rw [← hidx]
    exact keys_tuple.get_eq_slot r.impl Key hmem
  · intro v
    have hs := keys_tuple.set_of_helper Key r h hh v
    refine ⟨_, hs, ?_, hframe r _ Key _ hs⟩
    have h1 := keys_tuple.get_set_same r.impl Key _ _ hs
    have h2 := keys_tuple.get_eq_slot (h.set v r.impl) Key hmem
    rw [hidx] at h2
    exact h2.symm.trans h1
  · intro J r2 hsame
    by_cases hJ : J ∈ keys
    · rw [show r2 = ⟨r2.impl⟩ from rfl, show r = ⟨r.impl⟩ from rfl,
        keys_tuple.get_eq_slot r2.impl J hJ, keys_tuple.get_eq_slot r.impl J hJ,
        hsame _ (hne J hJ)]
    · rw [show r2 = ⟨r2.impl⟩ from rfl, show r = ⟨r.impl⟩ from rfl,
        keys_tuple.get_eq_none r2.impl J hJ, keys_tuple.get_eq_none r.impl J hJ]
  · intro cs r1 vs hrun
    exact keys_tuple.run_preserves (fun s => s.impl.slots[j]? = r.impl.slots[j]?)
      (fun s s1 J value hP hs => (hframe s s1 J value hs).trans hP) cs r r1 vs hrun rfl

/-- Witness of C11 on the record that lists `KEY_INT` at positions 0 and 2. -/
theorem C11_first_match_wins_witness :
    dup_keys[0]? = some main.StaticArray.KEY_INT ∧
      (∀ n : Nat, n < 0 → dup_keys[n]? ≠ some main.StaticArray.KEY_INT) ∧
      dup_keys[2]? = some main.StaticArray.KEY_INT ∧ 0 < 2 ∧
      ∃ h, keys_tuple.access_helper_t main.StaticArray.KEY_INT dup_keys dup_types = some h ∧
        dup_types[0]? = some h.value_type ∧
        dup_record.get main.StaticArray.KEY_INT = dup_record.live_value_at 0 ∧
        (∀ v : CppTypes.El h.value_type,
          ∃ r1, dup_record.set main.StaticArray.KEY_INT ⟨h.value_type, v⟩ = some r1 ∧
            r1.live_value_at 0 = some ⟨h.value_type, v⟩ ∧
            r1.impl.slots[2]? = dup_record.impl.slots[2]?) ∧
        (∀ (J : main.StaticArray) (r2 : keys_tuple dup_keys dup_types),
          (∀ p : Nat, p ≠ 2 → r2.impl.slots[p]? = dup_record.impl.slots[p]?) →
            r2.get J = dup_record.get J) ∧
        ∀ (cs : List (Call main.StaticArray main.Ty)) (r1 : keys_tuple dup_keys dup_types)
          (vs : List (Value main.Ty)),
          dup_record.run cs = some (r1, vs) →
            r1.impl.slots[2]? = dup_record.impl.slots[2]? :=
  ⟨rfl, fun n hn => absurd hn (Nat.not_lt_zero n), rfl, by decide,
    C11_first_match_wins dup_record main.StaticArray.KEY_INT 0 2 rfl
      (fun n hn => absurd hn (Nat.not_lt_zero n)) rfl (by decide)⟩

theorem dup_record_eq :
    keys_tuple.construct dup_keys dup_types
        [⟨main.Ty.int, (42 : Int)⟩, ⟨main.Ty.string, "Hello world"⟩, ⟨main.Ty.string, "later"⟩] =
      some dup_record ∧
    dup_record.get main.StaticArray.KEY_INT = some ⟨main.Ty.int, (42 : Int)⟩ ∧
    (dup_record.set main.StaticArray.KEY_INT ⟨main.Ty.int, (43 : Int)⟩).map
        (fun r1 => r1.impl.slots) =
      some [(⟨main.Ty.int, (43 : Int)⟩, ⟨main.Ty.int, (42 : Int)⟩, main.StaticArray.KEY_INT),
        (⟨main.Ty.string, "Hello world"⟩, ⟨main.Ty.string, "Hello world"⟩,
          main.StaticArray.KEY_HELLO),
        (⟨main.Ty.string, "later"⟩, ⟨main.Ty.string, "later"⟩, main.StaticArray.KEY_INT)] :=
  ⟨rfl, rfl, rfl⟩

/-! ## Algebra of set -/

theorem keys_tuple.set_set_same [DecidableEq K] [DecidableEq U] {keys : List K}
    {types : List U} (b : keys_tuple_impl keys types) (Key : K) (v1 v2 : Value U)
    (r1 : keys_tuple keys types) (h : (keys_tuple.mk b).set Key v1 = some r1) :
    r1.set Key v2 = (keys_tuple.mk b).set Key v2 := by
  induction b with
  | nil => simp [keys_tuple.set_nil] at h
  | @cons First_k Others_k First_t Others_t b v d k ih =>
    rw [keys_tuple.set_cons] at h
    by_cases e : Key = First_k
    · rw [if_pos e] at h
      by_cases e1 : v1.1 = First_t
      · simp only [e1, dif_pos, Option.some.injEq] at h
        subst h
        rw [keys_tuple.set_cons, keys_tuple.set_cons, if_pos e, if_pos e]
      · simp [e1] at h
    · rw [if_neg e] at h
      cases hs : (keys_tuple.mk b).set Key v1 with
      | none => simp [hs] at h
      | some b1 =>
        simp only [hs, Option.map_some', Option.some.injEq] at h
        subst h
        rw [keys_tuple.set_cons, keys_tuple.set_cons, if_neg e, if_neg e]
        have := ih b1 hs
        rw [show b1 = ⟨b1.impl⟩ from rfl] at this
        rw [this]

theorem keys_tuple.set_comm [DecidableEq K] [DecidableEq U] {keys : List K}
    {types : List U} (b : keys_tuple_impl keys types) (Key J : K) (hne : Key ≠ J)
    (v1 v2 : Value U) :
    ((keys_tuple.mk b).set Key v1).bind (fun s => s.set J v2) =
      ((keys_tuple.mk b).set J v2).bind (fun s => s.set Key v1) := by
  induction b with
  | nil => simp [keys_tuple.set_nil]
  | @cons First_k Others_k First_t Others_t b v d k ih =>
    by_cases e : Key = First_k
    · have eJ : J ≠ First_k := fun h => hne (e.trans h.symm)
      rw [keys_tuple.set_cons Key, keys_tuple.set_cons J, if_pos e, if_neg eJ]
      by_cases e1 : v1.1 = First_t
      · simp only [e1, dif_pos, Option.some_bind]
        rw [keys_tuple.set_cons, if_neg eJ]
        cases hs : (keys_tuple.mk b).set J v2 with
        | none => simp
        | some b2 =>
          simp only [Option.map_some', Option.some_bind]
          rw [keys_tuple.set_cons, if_pos e, dif_pos e1]
      · simp only [e1, dif_neg, not_false_eq_true, Option.none_bind]
        cases hs : (keys_tuple.mk b).set J v2 with
        | none => simp
        | some b2 =>
          simp only [Option.map_some', Option.some_bind]
          rw [keys_tuple.set_cons, if_pos e, dif_neg e1]
    · rw [keys_tuple.set_cons Key, if_neg e]
      by_cases eJ : J = First_k
      · rw [keys_tuple.set_cons J, if_pos eJ]
        by_cases e2 : v2.1 = First_t
        · simp only [e2, dif_pos, Option.some_bind]
          rw [keys_tuple.set_cons, if_neg e]
          cases hs : (keys_tuple.mk b).set Key v1 with
          | none => simp
          | some b1 =>
            simp only [Option.map_some', Option.some_bind]
            rw [keys_tuple.set_cons, if_pos eJ, dif_pos e2]
        · simp only [e2, dif_neg, not_false_eq_true, Option.none_bind]
          cases hs : (keys_tuple.mk b).set Key v1 with
          | none => simp
          | some b1 =>
            simp only [Option.map_some', Option.some_bind]
            rw [keys_tuple.set_cons, if_pos eJ, dif_neg e2]
      · rw [keys_tuple.set_cons J, if_neg eJ]
        cases hs1 : (keys_tuple.mk b).set Key v1 with
        | none =>
          simp only [Option.map_none', Option.none_bind]
          cases hs2 : (keys_tuple.mk b).set J v2 with
          | none => simp
          | some b2 =>
            simp only [Option.map_some', Option.some_bind]
            rw [keys_tuple.set_cons, if_neg e]
            have := ih
            rw [hs1, hs2] at this
            simp only [Option.none_bind, Option.some_bind] at this
            rw [← this]
            rfl
        | some b1 =>
          simp only [Option.map_some', Option.some_bind]
          rw [keys_tuple.set_cons, if_neg eJ]
          have := ih
          rw [hs1] at this
          simp only [Option.some_bind] at this
          rw [show (keys_tuple.mk b1.impl) = b1 from rfl, this]
          cases hs2 : (keys_tuple.mk b).set J v2 with
          | none => simp
          | some b2 =>
            simp only [Option.map_some', Option.some_bind]
            rw [keys_tuple.set_cons, if_neg e]

theorem keys_tuple.set_get [DecidableEq K] [DecidableEq U] {keys : List K}
    {types : List U} (b : keys_tuple_impl keys types) (Key : K) (value : Value U)
    (h : (keys_tuple.mk b).get Key = some value) :
    (keys_tuple.mk b).set Key value = some (keys_tuple.mk b) := by
  induction b with
  | nil => simp [keys_tuple.get_nil] at h
  | @cons First_k Others_k First_t Others_t b v d k ih =>
    rw [keys_tuple.get_cons] at h
    rw [keys_tuple.set_cons]
    by_cases e : Key = First_k
    · rw [if_pos e] at h
      rw [if_pos e]
      simp only [Option.some.injEq] at h
      subst h
      simp
    · rw [if_neg e] at h
      rw [if_neg e, ih h]
      rfl

/-- C12: for lists of equal length and a key whose first position in the key
list is `i`, the helper resolves, its `value_type` is the `i`-th entry of the
type list, and on every record of the type `get<Key>()` returns the live value
of the slot at position `i`: the position is fixed by the key list alone. -/
theorem C12_resolver_is_positional [DecidableEq K] (keys : List K) (types : List U)
    (hlen : keys.length = types.length) (Key : K) (i : Nat) (hi : keys[i]? = some Key)
    (hfirst : ∀ n : Nat, n < i → keys[n]? ≠ some Key) :
    ∃ h, keys_tuple.access_helper_t Key keys types = some h ∧
      types[i]? = some h.value_type ∧
      ∀ r : keys_tuple keys types,
        r.get Key = some ⟨h.value_type, h.get r.impl⟩ ∧
          r.live_value_at i = some ⟨h.value_type, h.get r.impl⟩ := by
  have hmem : Key ∈ keys := List.getElem?_mem hi
  have hidx : keys.indexOf Key = i := indexOf_eq_of_first keys Key i hi hfirst
  obtain ⟨h, hh⟩ := access_helper.resolve_of_mem Key keys types hmem hlen
  refine ⟨h, hh, ?_, fun r => ?_⟩
  · rw [← hidx]
    exact access_helper.resolve_value_type Key keys types h hh
  · have hg := keys_tuple.get_of_helper Key r h hh
    refine ⟨hg, ?_⟩
    have h2 := keys_tuple.get_eq_slot r.impl Key hmem
    rw [hidx] at h2
    exact h2.symm.trans hg

/-- Witness of C12: `KEY_INT` has first position 2 in the key list of `foo`. -/
theorem C12_resolver_is_positional_witness :
    main.foo_keys.length = main.foo_types.length ∧
      main.foo_keys[2]? = some main.StaticArray.KEY_INT ∧
      (∀ n : Nat, n < 2 → main.foo_keys[n]? ≠ some main.StaticArray.KEY_INT) ∧
      ∃ h, keys_tuple.access_helper_t main.StaticArray.KEY_INT main.foo_keys main.foo_types
          = some h ∧
        main.foo_types[2]? = some h.value_type ∧
        ∀ r : keys_tuple main.foo_keys main.foo_types,
          r.get main.StaticArray.KEY_INT = some ⟨h.value_type, h.get r.impl⟩ ∧
            r.live_value_at 2 = some ⟨h.value_type, h.get r.impl⟩ :=
  ⟨rfl, rfl, by decide,
    C12_resolver_is_positional main.foo_keys main.foo_types rfl main.StaticArray.KEY_INT 2 rfl
      (by decide)⟩

/-- C13: for lists of equal length and a key of the key list the helper
resolves (the undefined primary template is not reached), and on every record
`get<Key>()` yields a value and `set<Key>(v)` yields a record for every `v` of
the helper's `value_type`. -/
theorem C13_no_runtime_error_path [DecidableEq K] [DecidableEq U] (keys : List K)
    (types : List U) (hlen : keys.length = types.length) (Key : K) (hK : Key ∈ keys) :
    ∃ h, keys_tuple.access_helper_t Key keys types = some h ∧
      ∀ r : keys_tuple keys types,
        (∃ v : CppTypes.El h.value_type, r.get Key = some ⟨h.value_type, v⟩) ∧
          ∀ v : CppTypes.El h.value_type, ∃ r1, r.set Key ⟨h.value_type, v⟩ = some r1 := by
  obtain ⟨h, hh⟩ := access_helper.resolve_of_mem Key keys types hK hlen
  exact ⟨h, hh, fun r => ⟨⟨_, keys_tuple.get_of_helper Key r h hh⟩,
    fun v => ⟨_, keys_tuple.set_of_helper Key r h hh v⟩⟩⟩

/-- Witness of C13 on the lists of `foo` and `KEY_HELLO`. -/
theorem C13_no_runtime_error_path_witness :
    main.foo_keys.length = main.foo_types.length ∧
      main.StaticArray.KEY_HELLO ∈ main.foo_keys ∧
      ∃ h, keys_tuple.access_helper_t main.StaticArray.KEY_HELLO main.foo_keys main.foo_types
          = some h ∧
        ∀ r : keys_tuple main.foo_keys main.foo_types,
          (∃ v : CppTypes.El h.value_type,
            r.get main.StaticArray.KEY_HELLO = some ⟨h.value_type, v⟩) ∧
            ∀ v : CppTypes.El h.value_type,
              ∃ r1, r.set main.StaticArray.KEY_HELLO ⟨h.value_type, v⟩ = some r1 :=
  ⟨rfl, by decide,
    C13_no_runtime_error_path main.foo_keys main.foo_types rfl main.StaticArray.KEY_HELLO
      (by decide)⟩

/-- C15: for a key of the definition and values `a`, `b` of its type,
`set<Key>(a)` followed by `set<Key>(b)` gives the same record, in all its
fields, as `set<Key>(b)` alone; `set<Key>(b)` twice is `set<Key>(b)` once. -/
theorem C15_last_write_wins [DecidableEq K] [DecidableEq U] {keys : List K} {types : List U}
    (r : keys_tuple keys types) (Key : K) (hK : Key ∈ keys) :
    ∃ h, keys_tuple.access_helper_t Key keys types = some h ∧
      ∀ a b : CppTypes.El h.value_type,
        ∃ ra rb, r.set Key ⟨h.value_type, a⟩ = some ra ∧
          r.set Key ⟨h.value_type, b⟩ = some rb ∧
          ra.set Key ⟨h.value_type, b⟩ = some rb ∧
          rb.set Key ⟨h.value_type, b⟩ = some rb := by
  obtain ⟨h, hh⟩ := access_helper.resolve_of_mem Key keys types hK r.impl.length_eq
  refine ⟨h, hh, fun a b => ?_⟩
  have ha := keys_tuple.set_of_helper Key r h hh a
  have hb := keys_tuple.set_of_helper Key r h hh b
  refine ⟨_, _, ha, hb, ?_, ?_⟩
  · rw [keys_tuple.set_set_same r.impl Key _ _ _ ha]
    exact hb
  · rw [keys_tuple.set_set_same r.impl Key _ _ _ hb]
    exact hb

/-- Witness of C15 on `foo` and `KEY_INT`. -/
theorem C15_last_write_wins_witness :
    main.StaticArray.KEY_INT ∈ main.foo_keys ∧
      ∃ h, keys_tuple.access_helper_t main.StaticArray.KEY_INT main.foo_keys main.foo_types
          = some h ∧
        ∀ a b : CppTypes.El h.value_type,
          ∃ ra rb, (main.foo_record 7).set main.StaticArray.KEY_INT ⟨h.value_type, a⟩ = some ra ∧
            (main.foo_record 7).set main.StaticArray.KEY_INT ⟨h.value_type, b⟩ = some rb ∧
            ra.set main.StaticArray.KEY_INT ⟨h.value_type, b⟩ = some rb ∧
            rb.set main.StaticArray.KEY_INT ⟨h.value_type, b⟩ = some rb :=
  ⟨by decide, C15_last_write_wins (main.foo_record 7) main.StaticArray.KEY_INT (by decide)⟩

/-- C16: for two different keys of the definition and values `a`, `b` of their
types, `set<Key>(a)` then `set<J>(b)` gives the same record as `set<J>(b)` then
`set<Key>(a)`. -/
theorem C16_writes_commute [DecidableEq K] [DecidableEq U] {keys : List K} {types : List U}
    (r : keys_tuple keys types) (Key J : K) (hK : Key ∈ keys) (hJ : J ∈ keys)
    (hne : Key ≠ J) :
    ∃ hk hj, keys_tuple.access_helper_t Key keys types = some hk ∧
      keys_tuple.access_helper_t J keys types = some hj ∧
      ∀ (a : CppTypes.El hk.value_type) (b : CppTypes.El hj.value_type),
        ∃ ra rb rab, r.set Key ⟨hk.value_type, a⟩ = some ra ∧
          ra.set J ⟨hj.value_type, b⟩ = some rab ∧
          r.set J ⟨hj.value_type, b⟩ = some rb ∧
          rb.set Key ⟨hk.value_type, a⟩ = some rab := by
  obtain ⟨hk, hhk⟩ := access_helper.resolve_of_mem Key keys types hK r.impl.length_eq
  obtain ⟨hj, hhj⟩ := access_helper.resolve_of_mem J keys types hJ r.impl.length_eq
  refine ⟨hk, hj, hhk, hhj, fun a b => ?_⟩
  have ha := keys_tuple.set_of_helper Key r hk hhk a
  have hb := keys_tuple.set_of_helper J r hj hhj b
  have hab := keys_tuple.set_of_helper J ⟨hk.set a r.impl⟩ hj hhj b
  have hba := keys_tuple.set_of_helper Key ⟨hj.set b r.impl⟩ hk hhk a
  refine ⟨_, _, _, ha, hab, hb, ?_⟩
  have hc := keys_tuple.set_comm r.impl Key J hne ⟨hk.value_type, a⟩ ⟨hj.value_type, b⟩
  rw [show keys_tuple.mk r.impl = r from rfl, ha, hb] at hc
  simp only [Option.some_bind] at hc
  rw [← hc]
  exact hab

/-- Witness of C16 on `foo`, `KEY_INT` and `KEY_HELLO`. -/
theorem C16_writes_commute_witness :
    main.StaticArray.KEY_INT ∈ main.foo_keys ∧ main.StaticArray.KEY_HELLO ∈ main.foo_keys ∧
      main.StaticArray.KEY_INT ≠ main.StaticArray.KEY_HELLO ∧
      ∃ hk hj,
        keys_tuple.access_helper_t main.StaticArray.KEY_INT main.foo_keys main.foo_types
          = some hk ∧
        keys_tuple.access_helper_t main.StaticArray.KEY_HELLO main.foo_keys main.foo_types
          = some hj ∧
        ∀ (a : CppTypes.El hk.value_type) (b : CppTypes.El hj.value_type),
          ∃ ra rb rab,
            (main.foo_record 7).set main.StaticArray.KEY_INT ⟨hk.value_type, a⟩ = some ra ∧
            ra.set main.StaticArray.KEY_HELLO ⟨hj.value_type, b⟩ = some rab ∧
            (main.foo_record 7).set main.StaticArray.KEY_HELLO ⟨hj.value_type, b⟩ = some rb ∧
            rb.set main.StaticArray.KEY_INT ⟨hk.value_type, a⟩ = some rab :=
  ⟨by decide, by decide, by decide,
    C16_writes_commute (main.foo_record 7) main.StaticArray.KEY_INT main.StaticArray.KEY_HELLO
      (by decide) (by decide) (by decide)⟩

/-- C17: for a key of the definition, `get<Key>()` yields a value and
`set<Key>` of that value gives back the very same record. -/
theorem C17_set_of_get_is_noop [DecidableEq K] [DecidableEq U] {keys : List K}
    {types : List U} (r : keys_tuple keys types) (Key : K) (hK : Key ∈ keys) :
    ∃ v, r.get Key = some v ∧ r.set Key v = some r := by
  obtain ⟨h, hh⟩ := access_helper.resolve_of_mem Key keys types hK r.impl.length_eq
  have hg := keys_tuple.get_of_helper Key r h hh
  exact ⟨_, hg, keys_tuple.set_get r.impl Key _ hg⟩

/-- Witness of C17 on `foo` and `KEY_TIME`. -/
theorem C17_set_of_get_is_noop_witness :
    main.StaticArray.KEY_TIME ∈ main.foo_keys ∧
      ∃ v, (main.foo_record 7).get main.StaticArray.KEY_TIME = some v ∧
        (main.foo_record 7).set main.StaticArray.KEY_TIME v = some (main.foo_record 7) :=
  ⟨by decide, C17_set_of_get_is_noop (main.foo_record 7) main.StaticArray.KEY_TIME (by decide)⟩

/-! ## Stored keys -/

theorem erd_impl.keys_tuple_impl.construct_keys [DecidableEq U] (keys : List K)
    (types : List U) (args : List (Value U)) (b : keys_tuple_impl keys types)
    (h : keys_tuple_impl.construct keys types args = some b) :
    b.slots.map (fun s => s.2.2) = keys := by
  induction b generalizing args with
  | nil => rfl
  | @cons First_k Others_k First_t Others_t b v d k ih =>
    cases args with
    | nil => simp [keys_tuple_impl.construct] at h
    | cons a as =>
      obtain ⟨u, x⟩ := a
      simp only [keys_tuple_impl.construct] at h
      by_cases e : u = First_t
      · subst e
        simp only [dif_pos] at h
        cases hb : keys_tuple_impl.construct Others_k Others_t as with
        | none => simp [hb] at h
        | some b1 =>
          simp only [hb, Option.some.injEq, keys_tuple_impl.cons.injEq] at h
          obtain ⟨h1, h2, h3, h4⟩ := h
          subst h1 h2 h3 h4
          simp [keys_tuple_impl.slots, ih as hb]
      · simp [e] at h

theorem keys_tuple.construct_stored_keys [DecidableEq U] (keys : List K) (types : List U)
    (args : List (Value U)) (r : keys_tuple keys types)
    (h : keys_tuple.construct keys types args = some r) :
    r.impl.slots.map (fun s => s.2.2) = keys := by
  cases args with
  | nil =>
    exact keys_tuple_impl.construct_keys keys types _ r.impl
      ((keys_tuple.construct_nil keys types r).mp h).2
  | cons a as =>
    exact keys_tuple_impl.construct_keys keys types _ r.impl
      ((keys_tuple.construct_nonempty keys types (a :: as) (List.cons_ne_nil a as) r).mp h).2

/-- C18: a record obtained from a constructor call (without arguments or with
`N` arguments) has `N` slots whose stored `m_key` are the identifiers of the
list in order, and the same holds for the record after any sequence of `get`
and `set` calls on it. -/
theorem C18_shape_invariant [DecidableEq K] [DecidableEq U] (keys : List K) (types : List U)
    (args : List (Value U)) (r : keys_tuple keys types) (cs : List (Call K U))
    (r1 : keys_tuple keys types) (vs : List (Value U))
    (hc : keys_tuple.construct keys types args = some r) (hrun : r.run cs = some (r1, vs)) :
    (r.impl.slots.length = keys.length ∧ r.impl.slots.map (fun s => s.2.2) = keys) ∧
      r1.impl.slots.length = keys.length ∧ r1.impl.slots.map (fun s => s.2.2) = keys := by
  have h0 := keys_tuple.construct_stored_keys keys types args r hc
  refine ⟨⟨r.impl.slots_length, h0⟩, r1.impl.slots_length, ?_⟩
  refine keys_tuple.run_preserves (fun s => s.impl.slots.map (fun s => s.2.2) = keys)
    ?_ cs r r1 vs hrun h0
  intro s s1 Key value hP hs
  have h1 := (keys_tuple.slots_set s.impl Key value s1 hs).1
  have h2 : s1.impl.slots.map (fun s => s.2.2) =
      (s1.impl.slots.map Prod.snd).map Prod.snd := by
    rw [List.map_map]; rfl
  have h3 : s.impl.slots.map (fun s => s.2.2) =
      (s.impl.slots.map Prod.snd).map Prod.snd := by
    rw [List.map_map]; rfl
  show s1.impl.slots.map (fun s => s.2.2) = keys
  rw [h2, h1, ← h3]
  exact hP

/-- Witness of C18: `foo` as constructed in main.cpp 22, then the calls of
main.cpp 29-33. -/
theorem C18_shape_invariant_witness :
    keys_tuple.construct main.foo_keys main.foo_types (main.foo_args 7) =
        some (main.foo_record 7) ∧
      (main.foo_record 7).run main.foo_calls =
        some (main.foo_record_after 7,
          [⟨main.Ty.string, "He??o WORLD"⟩, ⟨main.Ty.int, (43 : Int)⟩]) ∧
      (((main.foo_record 7).impl.slots.length = main.foo_keys.length ∧
          (main.foo_record 7).impl.slots.map (fun s => s.2.2) = main.foo_keys) ∧
        (main.foo_record_after 7).impl.slots.length = main.foo_keys.length ∧
        (main.foo_record_after 7).impl.slots.map (fun s => s.2.2) = main.foo_keys) :=
  ⟨rfl, rfl,
    C18_shape_invariant main.foo_keys main.foo_types (main.foo_args 7) (main.foo_record 7)
      main.foo_calls (main.foo_record_after 7)
      [⟨main.Ty.string, "He??o WORLD"⟩, ⟨main.Ty.int, (43 : Int)⟩] rfl rfl⟩

end erd
